import Mathlib

/-!
Verification of the dynamo table-builder package.

The Go source (create.go, table.go) folds a list of functional options into
a `tableOptions` value and renders it into a DynamoDB create-table request.
Index declarations are closures capturing an index name, a projection type
and a nested option list; they are resolved against the enclosing
billing mode at render time.  Here each closure is represented by the data
it captures (`indexDecl`) together with an explicit render function.
Machine strings are Lean `String`; Go `int64` capacities are `Int` (the code
performs no arithmetic on them, so no wraparound can occur); nilable
pointers are `Option`; Go slices are Lean lists (nil slice = `[]`).
-/

namespace Dynamo

/-- Constants of the AWS SDK referenced by create.go / table.go. -/
def BillingModeProvisioned : String := "PROVISIONED"

def BillingModePayPerRequest : String := "PAY_PER_REQUEST"

def KeyTypeHash : String := "HASH"

def KeyTypeRange : String := "RANGE"

def ErrCodeResourceInUseException : String := "ResourceInUseException"

def ErrCodeResourceNotFoundException : String := "ResourceNotFoundException"

/-- create.go line 12: DefaultBillingMode = dynamodb.BillingModeProvisioned -/
def DefaultBillingMode : String := BillingModeProvisioned

/-- create.go line 13 -/
def DefaultReadCapacity : Int := 3

/-- create.go line 14 -/
def DefaultWriteCapacity : Int := 3

/-- create.go: type key struct -/
structure Key where
  attributeName : String
  attributeType : String
deriving DecidableEq, Repr

/-- create.go: type keyOptions struct (nil pointers become none) -/
structure KeyOptions where
  hashKey : Option Key
  rangeKey : Option Key
deriving DecidableEq, Repr

/-- create.go: type attribute struct -/
structure Attribute where
  name : String
  typ : String
deriving DecidableEq, Repr

/-- Options valid inside an index declaration: the Go values of static type
IndexOption, produced by WithAttr, WithHashKey, WithReadCapacity and
WithWriteCapacity (the latter three implement TableIndexOption). -/
inductive IndexOption where
  | withAttr (attributeName attributeType : String)
  | withHashKey (attributeName attributeType : String)
  | withReadCapacity (rcap : Int)
  | withWriteCapacity (wcap : Int)
deriving DecidableEq, Repr

/-- Options valid at table level: the Go values of static type TableOption,
produced by WithBillingMode, WithGlobalSecondaryIndex, WithHashKey,
WithLocalSecondaryIndex, WithRangeKey, WithReadCapacity,
WithStreamSpecification and WithWriteCapacity.  WithRangeKey and the index
constructors are not IndexOption values; WithAttr is not a TableOption. -/
inductive TableOption where
  | withBillingMode (mode : String)
  | withGlobalSecondaryIndex (indexName projectionType : String)
      (opts : List IndexOption)
  | withHashKey (attributeName attributeType : String)
  | withLocalSecondaryIndex (indexName projectionType : String)
      (opts : List IndexOption)
  | withRangeKey (attributeName attributeType : String)
  | withReadCapacity (rcap : Int)
  | withStreamSpecification (streamViewType : String)
  | withWriteCapacity (wcap : Int)
deriving DecidableEq, Repr

/-- The data captured by the closures appended to
tableOptions.globalIndexes / tableOptions.localIndexes by
WithGlobalSecondaryIndex / WithLocalSecondaryIndex. -/
structure IndexDecl where
  indexName : String
  projectionType : String
  opts : List IndexOption
deriving DecidableEq, Repr

/-- create.go: type tableOptions struct.  The closure lists are stored as
the captured data; projectionType is present in the Go struct but never
written or read. -/
structure TableOptions where
  attributes : List Attribute
  keys : KeyOptions
  billingMode : String
  globalIndexes : List IndexDecl
  localIndexes : List IndexDecl
  projectionType : String
  readCapacityUnits : Int
  streamViewType : String
  writeCapacityUnits : Int
deriving DecidableEq, Repr

/-- The mutation performed by an IndexOption value when applied via
ApplyIndex (each With* constructor wraps a single closure body). -/
def applyIndex (o : TableOptions) : IndexOption → TableOptions
  | .withAttr attributeName attributeType =>
      { o with attributes :=
          o.attributes ++ [{ name := attributeName, typ := attributeType }] }
  | .withHashKey attributeName attributeType =>
      let k : Key := { attributeName := attributeName,
                       attributeType := attributeType }
      { o with keys := { o.keys with hashKey := some k } }
  | .withReadCapacity rcap => { o with readCapacityUnits := rcap }
  | .withWriteCapacity wcap => { o with writeCapacityUnits := wcap }

/-- The mutation performed by a TableOption value when applied via
ApplyTable. -/
def applyTable (o : TableOptions) : TableOption → TableOptions
  | .withBillingMode mode => { o with billingMode := mode }
  | .withGlobalSecondaryIndex indexName projectionType opts =>
      { o with globalIndexes := o.globalIndexes ++
          [{ indexName := indexName, projectionType := projectionType,
             opts := opts }] }
  | .withHashKey attributeName attributeType =>
      let k : Key := { attributeName := attributeName,
                       attributeType := attributeType }
      { o with keys := { o.keys with hashKey := some k } }
  | .withLocalSecondaryIndex indexName projectionType opts =>
      { o with localIndexes := o.localIndexes ++
          [{ indexName := indexName, projectionType := projectionType,
             opts := opts }] }
  | .withRangeKey attributeName attributeType =>
      let k : Key := { attributeName := attributeName,
                       attributeType := attributeType }
      { o with keys := { o.keys with rangeKey := some k } }
  | .withReadCapacity rcap => { o with readCapacityUnits := rcap }
  | .withStreamSpecification streamViewType =>
      { o with streamViewType := streamViewType }
  | .withWriteCapacity wcap => { o with writeCapacityUnits := wcap }

/-- The argument of makeTableOptions: Go passes opts as interface\x7b\x7d and
switches on the two slice types that occur at the call sites. -/
inductive OptsArg where
  | index (opts : List IndexOption)
  | table (opts : List TableOption)

/-- The initial tableOptions value of makeTableOptions: the stated
defaults, every other field at its zero value. -/
def defaultTableOptions : TableOptions :=
  { attributes := []
    keys := { hashKey := none, rangeKey := none }
    billingMode := DefaultBillingMode
    globalIndexes := []
    localIndexes := []
    projectionType := ""
    readCapacityUnits := DefaultReadCapacity
    streamViewType := ""
    writeCapacityUnits := DefaultWriteCapacity }

/-- create.go lines 208 to 227: defaults then fold the options in order. -/
def makeTableOptions (opts : OptsArg) : TableOptions :=
  let options : TableOptions := defaultTableOptions
  match opts with
  | .index v => v.foldl applyIndex options
  | .table v => v.foldl applyTable options

/-- SDK shape: dynamodb.AttributeDefinition -/
structure AttributeDefinition where
  attributeName : String
  attributeType : String
deriving DecidableEq, Repr

/-- SDK shape: dynamodb.KeySchemaElement -/
structure KeySchemaElement where
  attributeName : String
  keyType : String
deriving DecidableEq, Repr

/-- SDK shape: dynamodb.ProvisionedThroughput -/
structure ProvisionedThroughput where
  readCapacityUnits : Int
  writeCapacityUnits : Int
deriving DecidableEq, Repr

/-- SDK shape: dynamodb.Projection -/
structure Projection where
  nonKeyAttributes : List String
  projectionType : String
deriving DecidableEq, Repr

/-- SDK shape: dynamodb.GlobalSecondaryIndex -/
structure GlobalSecondaryIndex where
  indexName : String
  keySchema : List KeySchemaElement
  projection : Projection
  provisionedThroughput : Option ProvisionedThroughput
deriving DecidableEq, Repr

/-- SDK shape: dynamodb.LocalSecondaryIndex.  The SDK type has no
provisioned-throughput field, so a local index can never carry one. -/
structure LocalSecondaryIndex where
  indexName : String
  keySchema : List KeySchemaElement
  projection : Projection
deriving DecidableEq, Repr

/-- SDK shape: dynamodb.StreamSpecification -/
structure StreamSpecification where
  streamEnabled : Bool
  streamViewType : String
deriving DecidableEq, Repr

/-- SDK shape: dynamodb.CreateTableInput (the fields create.go writes) -/
structure CreateTableInput where
  attributeDefinitions : List AttributeDefinition
  billingMode : String
  keySchema : List KeySchemaElement
  provisionedThroughput : Option ProvisionedThroughput
  tableName : String
  streamSpecification : Option StreamSpecification
  globalSecondaryIndexes : List GlobalSecondaryIndex
  localSecondaryIndexes : List LocalSecondaryIndex
deriving DecidableEq, Repr

/-- SDK shape: dynamodb.DeleteTableInput -/
structure DeleteTableInput where
  tableName : String
deriving DecidableEq, Repr

/-- create.go lines 163 to 178 -/
def makeAttributeDefinitions (options : TableOptions) :
    List AttributeDefinition :=
  let items : List AttributeDefinition := []
  let items := match options.keys.hashKey with
    | some k => items ++ [{ attributeName := k.attributeName,
                            attributeType := k.attributeType }]
    | none => items
  let items := match options.keys.rangeKey with
    | some k => items ++ [{ attributeName := k.attributeName,
                            attributeType := k.attributeType }]
    | none => items
  items

/-- create.go lines 180 to 195 -/
def makeKeySchemaElements (options : TableOptions) :
    List KeySchemaElement :=
  let items : List KeySchemaElement := []
  let items := match options.keys.hashKey with
    | some k => items ++ [{ attributeName := k.attributeName,
                            keyType := KeyTypeHash }]
    | none => items
  let items := match options.keys.rangeKey with
    | some k => items ++ [{ attributeName := k.attributeName,
                            keyType := KeyTypeRange }]
    | none => items
  items

/-- create.go lines 197 to 206 -/
def makeProvisionedThroughput (options : TableOptions) :
    Option ProvisionedThroughput :=
  if options.billingMode = BillingModePayPerRequest then
    none
  else
    some { readCapacityUnits := options.readCapacityUnits,
           writeCapacityUnits := options.writeCapacityUnits }

/-- create.go lines 128 to 134 -/
def makeAttributeNames (attributes : List Attribute) : List String :=
  attributes.map (fun item => item.name)

/-- The closure built by WithGlobalSecondaryIndex (create.go lines 84
to 97), applied to a billing mode: resolve the nested options against
defaults, overwrite the billing mode, and build the index entry. -/
def renderGlobalIndex (d : IndexDecl) (billingMode : String) :
    GlobalSecondaryIndex × List Attribute :=
  let options := { makeTableOptions (.index d.opts) with
                     billingMode := billingMode }
  ({ indexName := d.indexName
     keySchema := makeKeySchemaElements options
     projection := { nonKeyAttributes := makeAttributeNames options.attributes
                     projectionType := d.projectionType }
     provisionedThroughput := makeProvisionedThroughput options },
   options.attributes)

/-- The closure built by WithLocalSecondaryIndex (create.go lines 112
to 124): same shape, but the entry has no throughput field. -/
def renderLocalIndex (d : IndexDecl) (billingMode : String) :
    LocalSecondaryIndex × List Attribute :=
  let options := { makeTableOptions (.index d.opts) with
                     billingMode := billingMode }
  ({ indexName := d.indexName
     keySchema := makeKeySchemaElements options
     projection := { nonKeyAttributes := makeAttributeNames options.attributes
                     projectionType := d.projectionType } },
   options.attributes)

/-- create.go lines 275 to 298, the loop over attributes with the seen
set threaded explicitly (the Go map over names). -/
def mergeAux (seen : List String) (merged : List AttributeDefinition) :
    List Attribute → List AttributeDefinition
  | [] => merged
  | attr :: rest =>
      if attr.name ∈ seen then
        mergeAux seen merged rest
      else
        mergeAux (attr.name :: seen)
          (merged ++ [{ attributeName := attr.name,
                        attributeType := attr.typ }]) rest

/-- create.go merge: seed the seen set with the names of the existing
definitions, keep every existing definition, then append each attribute
whose name has not been seen. -/
def merge (definitions : List AttributeDefinition)
    (attributes : List Attribute) : List AttributeDefinition :=
  mergeAux (definitions.map (fun d => d.attributeName)) definitions attributes

/-- One iteration of the global-index loop in makeCreateTableInput:
call the closure, append the index entry, merge its attributes. -/
def gsiStep (billingMode : String) (input : CreateTableInput)
    (d : IndexDecl) : CreateTableInput :=
  { input with
      globalSecondaryIndexes :=
        input.globalSecondaryIndexes ++ [(renderGlobalIndex d billingMode).1]
      attributeDefinitions :=
        merge input.attributeDefinitions (renderGlobalIndex d billingMode).2 }

/-- One iteration of the local-index loop in makeCreateTableInput. -/
def lsiStep (billingMode : String) (input : CreateTableInput)
    (d : IndexDecl) : CreateTableInput :=
  { input with
      localSecondaryIndexes :=
        input.localSecondaryIndexes ++ [(renderLocalIndex d billingMode).1]
      attributeDefinitions :=
        merge input.attributeDefinitions (renderLocalIndex d billingMode).2 }

/-- create.go lines 229 to 257 -/
def makeCreateTableInput (tableName : String) (opts : List TableOption) :
    CreateTableInput :=
  let options := makeTableOptions (.table opts)
  let input : CreateTableInput :=
    { attributeDefinitions := makeAttributeDefinitions options
      billingMode := options.billingMode
      keySchema := makeKeySchemaElements options
      provisionedThroughput := makeProvisionedThroughput options
      tableName := tableName
      streamSpecification := none
      globalSecondaryIndexes := []
      localSecondaryIndexes := [] }
  let input :=
    if options.streamViewType ≠ "" then
      let s : StreamSpecification :=
        { streamEnabled := true, streamViewType := options.streamViewType }
      { input with streamSpecification := some s }
    else input
  let input := options.globalIndexes.foldl (gsiStep options.billingMode) input
  let input := options.localIndexes.foldl (lsiStep options.billingMode) input
  input

/-- The error domain of the collaborator: either a value implementing
awserr.Error (carrying a code) or some other error value. -/
inductive AwsError where
  | awsErr (code msg : String)
  | genericErr (msg : String)
deriving DecidableEq, Repr

/-- The Go pattern: type-assert to awserr.Error and compare the code. -/
def hasAwsCode (e : AwsError) (code : String) : Bool :=
  match e with
  | .awsErr c _ => c = code
  | .genericErr _ => false

/-- The collaborator (dynamodbiface.DynamoDBAPI as used here): each call
takes a context and a request and returns none on success or some error.
Ctx is an opaque context type. -/
structure DynamoDBAPI (Ctx : Type) where
  createTableWithContext : Ctx → CreateTableInput → Option AwsError
  deleteTableWithContext : Ctx → DeleteTableInput → Option AwsError

/-- table.go: type Table struct -/
structure Table (Ctx : Type) where
  api : DynamoDBAPI Ctx
  tableName : String

/-- table.go: New -/
def New (Ctx : Type) (api : DynamoDBAPI Ctx) (tableName : String) :
    Table Ctx :=
  { api := api, tableName := tableName }

/-- The request built inside CreateTableIfNotExists (create.go lines 260
to 264): the hash key from the arguments is prepended to the supplied
options. -/
def mergedCreateInput (t : Table Ctx) (hashKeyName hashKeyType : String)
    (opts : List TableOption) : CreateTableInput :=
  makeCreateTableInput t.tableName
    (TableOption.withHashKey hashKeyName hashKeyType :: opts)

/-- create.go lines 259 to 273 -/
def CreateTableIfNotExists (t : Table Ctx) (ctx : Ctx)
    (hashKeyName hashKeyType : String) (opts : List TableOption) :
    Option AwsError :=
  let input := mergedCreateInput t hashKeyName hashKeyType opts
  match t.api.createTableWithContext ctx input with
  | some err =>
      if hasAwsCode err ErrCodeResourceInUseException then none else some err
  | none => none

/-- table.go lines 252 to 265 -/
def DeleteTableIfExists (t : Table Ctx) (ctx : Ctx) : Option AwsError :=
  let input : DeleteTableInput := { tableName := t.tableName }
  match t.api.deleteTableWithContext ctx input with
  | some err =>
      if hasAwsCode err ErrCodeResourceNotFoundException then none
      else some err
  | none => none

/-- De-duplication of attributes by name, first occurrence winning, given
an initial set of already-seen names.  This is the behaviour the spec
ascribes to the merge step; it is compared with the rendered output. -/
def dedupByName : List Attribute → List String → List AttributeDefinition
  | [], _ => []
  | a :: rest, seen =>
      if a.name ∈ seen then dedupByName rest seen
      else { attributeName := a.name, attributeType := a.typ } ::
        dedupByName rest (a.name :: seen)

/-- The seen-name set left behind by a dedupByName pass. -/
def seenAfter : List Attribute → List String → List String
  | [], seen => seen
  | a :: rest, seen =>
      if a.name ∈ seen then seenAfter rest seen
      else seenAfter rest (a.name :: seen)

/-- The table hash and range key attributes, in the order
makeAttributeDefinitions emits them. -/
def tableKeyAttributes (o : TableOptions) : List Attribute :=
  (match o.keys.hashKey with
    | some k => [{ name := k.attributeName, typ := k.attributeType }]
    | none => []) ++
  (match o.keys.rangeKey with
    | some k => [{ name := k.attributeName, typ := k.attributeType }]
    | none => [])

/-- The attributes an index declaration contributes to the merge: the
attribute list of its resolved nested options (the billing-mode overwrite
performed at render time does not touch it). -/
def indexDeclaredAttributes (d : IndexDecl) : List Attribute :=
  (makeTableOptions (.index d.opts)).attributes

/-- The full declaration-order attribute sequence of a rendered request:
table keys first, then each global index, then each local index. -/
def declaredAttributeSeq (opts : List TableOption) : List Attribute :=
  let o := makeTableOptions (.table opts)
  tableKeyAttributes o ++
    (o.globalIndexes.map indexDeclaredAttributes).flatten ++
    (o.localIndexes.map indexDeclaredAttributes).flatten

/-- Modelled from the spec sentence under test: the attribute-definitions
list described as the declared attributes de-duplicated by name with the
first occurrence winning. -/
def specAttributeDefinitions (opts : List TableOption) :
    List AttributeDefinition :=
  dedupByName (declaredAttributeSeq opts) []

/-- Whether a table option is a billing-mode option. -/
def TableOption.isBillingMode : TableOption → Bool
  | .withBillingMode _ => true
  | _ => false

/-- Whether a table option is a hash-key option. -/
def TableOption.isHashKey : TableOption → Bool
  | .withHashKey _ _ => true
  | _ => false

/-- Whether a table option is a range-key option. -/
def TableOption.isRangeKey : TableOption → Bool
  | .withRangeKey _ _ => true
  | _ => false

/-- Whether a table option is a read-capacity option. -/
def TableOption.isReadCapacity : TableOption → Bool
  | .withReadCapacity _ => true
  | _ => false

/-- Whether a table option is a write-capacity option. -/
def TableOption.isWriteCapacity : TableOption → Bool
  | .withWriteCapacity _ => true
  | _ => false

/-- Whether a table option is a stream-specification option. -/
def TableOption.isStreamSpecification : TableOption → Bool
  | .withStreamSpecification _ => true
  | _ => false

/-- Whether an index option sets a capacity value. -/
def IndexOption.isCapacity : IndexOption → Bool
  | .withReadCapacity _ => true
  | .withWriteCapacity _ => true
  | _ => false

/-- Whether the resolved table hash and range keys, when both set, carry
distinct attribute names. -/
def distinctTableKeys (o : TableOptions) : Bool :=
  match o.keys.hashKey, o.keys.rangeKey with
  | some hk, some rk => hk.attributeName ≠ rk.attributeName
  | _, _ => true

theorem makeTableOptions_table (l : List TableOption) :
    makeTableOptions (.table l) = l.foldl applyTable defaultTableOptions :=
  rfl

theorem makeTableOptions_index (l : List IndexOption) :
    makeTableOptions (.index l) = l.foldl applyIndex defaultTableOptions :=
  rfl

theorem mergeAux_eq_dedup (attrs : List Attribute) :
    ∀ (seen : List String) (merged : List AttributeDefinition),
    mergeAux seen merged attrs = merged ++ dedupByName attrs seen := by
  induction attrs with
  | nil => intro seen merged; simp [mergeAux, dedupByName]
  | cons a rest ih =>
      intro seen merged
      by_cases h : a.name ∈ seen
      · simp [mergeAux, dedupByName, h, ih]
      · simp [mergeAux, dedupByName, h, ih]

theorem merge_eq_dedup (definitions : List AttributeDefinition)
    (attributes : List Attribute) :
    merge definitions attributes =
      definitions ++ dedupByName attributes
        (definitions.map (fun d => d.attributeName)) := by
  simp [merge, mergeAux_eq_dedup]

theorem merge_nil (definitions : List AttributeDefinition) :
    merge definitions [] = definitions := by
  simp [merge, mergeAux]

theorem mem_seenAfter (attrs : List Attribute) :
    ∀ (seen : List String) (n : String),
    n ∈ seenAfter attrs seen ↔
      n ∈ seen ∨ n ∈ attrs.map (fun a => a.name) := by
  induction attrs with
  | nil => intro seen n; simp [seenAfter]
  | cons a rest ih =>
      intro seen n
      by_cases h : a.name ∈ seen
      · rw [seenAfter, if_pos h, ih]
        simp only [List.map_cons, List.mem_cons]
        constructor
        · rintro (h1 | h1)
          · exact Or.inl h1
          · exact Or.inr (Or.inr h1)
        · rintro (h1 | h1 | h1)
          · exact Or.inl h1
          · exact Or.inl (h1 ▸ h)
          · exact Or.inr h1
      · rw [seenAfter, if_neg h, ih]
        simp only [List.map_cons, List.mem_cons]
        tauto

theorem mem_dedupByName_names (attrs : List Attribute) :
    ∀ (seen : List String) (n : String),
    n ∈ (dedupByName attrs seen).map (fun d => d.attributeName) ↔
      n ∈ attrs.map (fun a => a.name) ∧ n ∉ seen := by
  induction attrs with
  | nil => intro seen n; simp [dedupByName]
  | cons a rest ih =>
      intro seen n
      by_cases h : a.name ∈ seen
      · rw [dedupByName, if_pos h, ih]
        simp only [List.map_cons, List.mem_cons]
        constructor
        · rintro ⟨h1, h2⟩
          exact ⟨Or.inr h1, h2⟩
        · rintro ⟨h1 | h1, h2⟩
          · exact absurd (h1 ▸ h) h2
          · exact ⟨h1, h2⟩
      · rw [dedupByName, if_neg h]
        simp only [List.map_cons, List.mem_cons, ih, List.mem_cons]
        constructor
        · rintro (h1 | ⟨h1, h2⟩)
          · exact ⟨Or.inl h1, h1 ▸ h⟩
          · exact ⟨Or.inr h1, fun hc => h2 (Or.inr hc)⟩
        · rintro ⟨h1 | h1, h2⟩
          · exact Or.inl h1
          · by_cases hn : n = a.name
            · exact Or.inl hn
            · exact Or.inr ⟨h1, fun hc => hc.elim hn h2⟩

theorem dedupByName_append (as bs : List Attribute) :
    ∀ seen : List String,
    dedupByName (as ++ bs) seen =
      dedupByName as seen ++ dedupByName bs (seenAfter as seen) := by
  induction as with
  | nil => intro seen; simp [dedupByName, seenAfter]
  | cons a rest ih =>
      intro seen
      by_cases h : a.name ∈ seen <;>
        simp [dedupByName, seenAfter, h, ih]

theorem dedupByName_congr (attrs : List Attribute) :
    ∀ seen₁ seen₂ : List String, (∀ n, n ∈ seen₁ ↔ n ∈ seen₂) →
    dedupByName attrs seen₁ = dedupByName attrs seen₂ := by
  induction attrs with
  | nil => intro _ _ _; simp [dedupByName]
  | cons a rest ih =>
      intro s₁ s₂ h
      by_cases ha : a.name ∈ s₁
      · have hb : a.name ∈ s₂ := (h _).1 ha
        rw [dedupByName, if_pos ha, dedupByName, if_pos hb]
        exact ih _ _ h
      · have hb : a.name ∉ s₂ := fun hc => ha ((h _).2 hc)
        rw [dedupByName, if_neg ha, dedupByName, if_neg hb]
        rw [ih (a.name :: s₁) (a.name :: s₂)
          (fun n => by simp only [List.mem_cons]; rw [h n])]

theorem merge_merge (d : List AttributeDefinition) (a₁ a₂ : List Attribute) :
    merge (merge d a₁) a₂ = merge d (a₁ ++ a₂) := by
  rw [merge_eq_dedup d a₁, merge_eq_dedup, merge_eq_dedup,
    dedupByName_append, List.append_assoc]
  congr 1
  congr 1
  apply dedupByName_congr
  intro n
  rw [mem_seenAfter]
  simp only [List.map_append, List.mem_append]
  rw [mem_dedupByName_names]
  tauto

theorem foldl_merge_flatten (ls : List (List Attribute)) :
    ∀ d : List AttributeDefinition,
    ls.foldl merge d = merge d ls.flatten := by
  induction ls with
  | nil => intro d; simp [merge_nil]
  | cons a rest ih =>
      intro d
      simp only [List.foldl_cons, List.flatten_cons, ih, merge_merge]

theorem dedupByName_names_nodup (attrs : List Attribute) :
    ∀ seen : List String,
    ((dedupByName attrs seen).map (fun d => d.attributeName)).Nodup := by
  induction attrs with
  | nil => intro seen; simp [dedupByName]
  | cons a rest ih =>
      intro seen
      by_cases h : a.name ∈ seen
      · rw [dedupByName, if_pos h]; exact ih _
      · rw [dedupByName, if_neg h]
        simp only [List.map_cons, List.nodup_cons]
        refine ⟨fun hc => ?_, ih _⟩
        rw [mem_dedupByName_names] at hc
        exact hc.2 (List.mem_cons_self _ _)

theorem dedupByName_find (attrs : List Attribute) :
    ∀ (seen : List String) (d : AttributeDefinition),
    d ∈ dedupByName attrs seen →
    attrs.find? (fun a => a.name = d.attributeName) =
      some { name := d.attributeName, typ := d.attributeType } := by
  induction attrs with
  | nil => intro _ _ h; simp [dedupByName] at h
  | cons a rest ih =>
      intro seen d hd
      have hnotseen : d.attributeName ∉ seen := by
        have := mem_dedupByName_names (a :: rest) seen d.attributeName
        exact (this.1 (List.mem_map.2 ⟨d, hd, rfl⟩)).2
      by_cases h : a.name ∈ seen
      · rw [dedupByName, if_pos h] at hd
        have hne : a.name ≠ d.attributeName := fun he => hnotseen (he ▸ h)
        rw [List.find?_cons]
        simp [hne]
        exact ih _ _ hd
      · rw [dedupByName, if_neg h] at hd
        rcases List.mem_cons.1 hd with he | hd
        · subst he
          rw [List.find?_cons]
          simp
        · have hnot : d.attributeName ∉ a.name :: seen := by
            have := mem_dedupByName_names rest (a.name :: seen) d.attributeName
            exact (this.1 (List.mem_map.2 ⟨d, hd, rfl⟩)).2
          have hne : a.name ≠ d.attributeName := fun he =>
            hnot (he ▸ List.mem_cons_self _ _)
          rw [List.find?_cons]
          simp [hne]
          exact ih _ _ hd

theorem foldl_gsiStep_eq (b : String) (l : List IndexDecl) :
    ∀ inp : CreateTableInput,
    l.foldl (gsiStep b) inp =
      { inp with
          globalSecondaryIndexes := inp.globalSecondaryIndexes ++
            l.map (fun d => (renderGlobalIndex d b).1)
          attributeDefinitions := merge inp.attributeDefinitions
            (l.map (fun d => (renderGlobalIndex d b).2)).flatten } := by
  induction l with
  | nil => intro inp; simp [merge_nil]
  | cons d rest ih =>
      intro inp
      simp only [List.foldl_cons, ih, gsiStep, List.map_cons,
        List.flatten_cons, merge_merge, List.append_assoc,
        List.singleton_append]

theorem foldl_lsiStep_eq (b : String) (l : List IndexDecl) :
    ∀ inp : CreateTableInput,
    l.foldl (lsiStep b) inp =
      { inp with
          localSecondaryIndexes := inp.localSecondaryIndexes ++
            l.map (fun d => (renderLocalIndex d b).1)
          attributeDefinitions := merge inp.attributeDefinitions
            (l.map (fun d => (renderLocalIndex d b).2)).flatten } := by
  induction l with
  | nil => intro inp; simp [merge_nil]
  | cons d rest ih =>
      intro inp
      simp only [List.foldl_cons, ih, lsiStep, List.map_cons,
        List.flatten_cons, merge_merge, List.append_assoc,
        List.singleton_append]

theorem renderGlobalIndex_attributes (d : IndexDecl) (b : String) :
    (renderGlobalIndex d b).2 = indexDeclaredAttributes d := by
  simp [renderGlobalIndex, indexDeclaredAttributes]

theorem renderLocalIndex_attributes (d : IndexDecl) (b : String) :
    (renderLocalIndex d b).2 = indexDeclaredAttributes d := by
  simp [renderLocalIndex, indexDeclaredAttributes]

/-- The rendered request, field by field: the loops of
makeCreateTableInput unrolled into one record. -/
theorem makeCreateTableInput_eq (tableName : String)
    (opts : List TableOption) :
    makeCreateTableInput tableName opts =
      { attributeDefinitions :=
          merge (makeAttributeDefinitions (makeTableOptions (.table opts)))
            (((makeTableOptions (.table opts)).globalIndexes.map
                indexDeclaredAttributes).flatten ++
             ((makeTableOptions (.table opts)).localIndexes.map
                indexDeclaredAttributes).flatten)
        billingMode := (makeTableOptions (.table opts)).billingMode
        keySchema := makeKeySchemaElements (makeTableOptions (.table opts))
        provisionedThroughput :=
          makeProvisionedThroughput (makeTableOptions (.table opts))
        tableName := tableName
        streamSpecification :=
          if (makeTableOptions (.table opts)).streamViewType ≠ "" then
            some { streamEnabled := true,
                   streamViewType :=
                     (makeTableOptions (.table opts)).streamViewType }
          else none
        globalSecondaryIndexes :=
          (makeTableOptions (.table opts)).globalIndexes.map
            (fun d =>
              (renderGlobalIndex d
                (makeTableOptions (.table opts)).billingMode).1)
        localSecondaryIndexes :=
          (makeTableOptions (.table opts)).localIndexes.map
            (fun d =>
              (renderLocalIndex d
                (makeTableOptions (.table opts)).billingMode).1) } := by
  rw [makeCreateTableInput]
  simp only [foldl_gsiStep_eq, foldl_lsiStep_eq, merge_merge]
  simp only [renderGlobalIndex_attributes, renderLocalIndex_attributes]
  by_cases h : (makeTableOptions (.table opts)).streamViewType ≠ "" <;>
    simp [h]

theorem foldl_applyTable_preserve {α : Type} (f : TableOptions → α)
    (l : List TableOption)
    (h : ∀ (s : TableOptions), ∀ o ∈ l, f (applyTable s o) = f s) :
    ∀ s, f (l.foldl applyTable s) = f s := by
  induction l with
  | nil => intro s; rfl
  | cons o rest ih =>
      intro s
      rw [List.foldl_cons,
        ih (fun s o ho => h s o (List.mem_cons_of_mem _ ho)),
        h s o (List.mem_cons_self _ _)]

theorem applyTable_billingMode (s : TableOptions) (o : TableOption)
    (h : o.isBillingMode = false) :
    (applyTable s o).billingMode = s.billingMode := by
  cases o <;> simp_all [applyTable, TableOption.isBillingMode]

theorem applyTable_hashKey_preserve (s : TableOptions) (o : TableOption)
    (h : o.isHashKey = false) :
    (applyTable s o).keys.hashKey = s.keys.hashKey := by
  cases o <;> simp_all [applyTable, TableOption.isHashKey]

theorem applyTable_rangeKey_preserve (s : TableOptions) (o : TableOption)
    (h : o.isRangeKey = false) :
    (applyTable s o).keys.rangeKey = s.keys.rangeKey := by
  cases o <;> simp_all [applyTable, TableOption.isRangeKey]

theorem applyTable_readCapacity_preserve (s : TableOptions) (o : TableOption)
    (h : o.isReadCapacity = false) :
    (applyTable s o).readCapacityUnits = s.readCapacityUnits := by
  cases o <;> simp_all [applyTable, TableOption.isReadCapacity]

theorem applyTable_writeCapacity_preserve (s : TableOptions) (o : TableOption)
    (h : o.isWriteCapacity = false) :
    (applyTable s o).writeCapacityUnits = s.writeCapacityUnits := by
  cases o <;> simp_all [applyTable, TableOption.isWriteCapacity]

theorem applyTable_streamViewType_preserve (s : TableOptions)
    (o : TableOption) (h : o.isStreamSpecification = false) :
    (applyTable s o).streamViewType = s.streamViewType := by
  cases o <;> simp_all [applyTable, TableOption.isStreamSpecification]

theorem foldl_applyTable_billing_gsis (l : List TableOption) :
    ∀ s₁ s₂ : TableOptions, s₁.billingMode = s₂.billingMode →
      s₁.globalIndexes = s₂.globalIndexes →
      (l.foldl applyTable s₁).billingMode =
        (l.foldl applyTable s₂).billingMode ∧
      (l.foldl applyTable s₁).globalIndexes =
        (l.foldl applyTable s₂).globalIndexes := by
  induction l with
  | nil => intro s₁ s₂ hb hg; exact ⟨hb, hg⟩
  | cons o rest ih =>
      intro s₁ s₂ hb hg
      apply ih
      · cases o <;> simp [applyTable, hb]
      · cases o <;> simp [applyTable, hg]

theorem foldl_applyIndex_capacity (l : List IndexOption)
    (h : ∀ io ∈ l, io.isCapacity = false) :
    ∀ s : TableOptions,
    (l.foldl applyIndex s).readCapacityUnits = s.readCapacityUnits ∧
    (l.foldl applyIndex s).writeCapacityUnits = s.writeCapacityUnits := by
  induction l with
  | nil => intro s; exact ⟨rfl, rfl⟩
  | cons io rest ih =>
      intro s
      have hio := h io (List.mem_cons_self _ _)
      have hrest := ih (fun x hx => h x (List.mem_cons_of_mem _ hx))
      rw [List.foldl_cons]
      refine ⟨((hrest _).1).trans ?_, ((hrest _).2).trans ?_⟩ <;>
        cases io <;> simp_all [applyIndex, IndexOption.isCapacity]

theorem makeAttributeDefinitions_names (o : TableOptions) :
    (makeAttributeDefinitions o).map (fun d => d.attributeName) =
      (tableKeyAttributes o).map (fun a => a.name) := by
  rcases h1 : o.keys.hashKey with _ | hk <;>
    rcases h2 : o.keys.rangeKey with _ | rk <;>
    simp [makeAttributeDefinitions, tableKeyAttributes, h1, h2]

theorem dedup_tableKeyAttributes (o : TableOptions)
    (hdist : distinctTableKeys o = true) :
    dedupByName (tableKeyAttributes o) [] = makeAttributeDefinitions o := by
  rcases h1 : o.keys.hashKey with _ | hk <;>
    rcases h2 : o.keys.rangeKey with _ | rk
  · simp [tableKeyAttributes, makeAttributeDefinitions, dedupByName, h1, h2]
  · simp [tableKeyAttributes, makeAttributeDefinitions, dedupByName, h1, h2]
  · simp [tableKeyAttributes, makeAttributeDefinitions, dedupByName, h1, h2]
  · have hne : hk.attributeName ≠ rk.attributeName := by
      simpa [distinctTableKeys, h1, h2] using hdist
    simp [tableKeyAttributes, makeAttributeDefinitions, dedupByName, h1, h2,
      Ne.symm hne]

/-- Under distinct table key names, the rendered attribute-definitions list
is the declared attribute sequence de-duplicated by name, first occurrence
winning. -/
theorem attributeDefinitions_characterization (tableName : String)
    (opts : List TableOption)
    (hkeys : distinctTableKeys (makeTableOptions (.table opts)) = true) :
    (makeCreateTableInput tableName opts).attributeDefinitions =
      specAttributeDefinitions opts := by
  rw [makeCreateTableInput_eq]
  dsimp only
  rw [merge_eq_dedup, specAttributeDefinitions, declaredAttributeSeq,
    List.append_assoc, dedupByName_append, dedupByName_append,
    dedupByName_append, dedup_tableKeyAttributes _ hkeys]
  have hseen : ∀ n : String,
      n ∈ (makeAttributeDefinitions
            (makeTableOptions (.table opts))).map
          (fun d => d.attributeName) ↔
      n ∈ seenAfter (tableKeyAttributes (makeTableOptions (.table opts)))
          [] := by
    intro n
    rw [mem_seenAfter, makeAttributeDefinitions_names]
    simp
  apply congrArg
  congr 1
  · exact dedupByName_congr _ _ _ hseen
  · apply dedupByName_congr
    intro n
    rw [mem_seenAfter, mem_seenAfter, hseen n]

/-- C1: for every option sequence, the rendered create-table request has a
table-level provisioned-throughput value exactly when the resolved billing
mode is not pay-per-request, and when present it carries the configured
read and write capacity units. -/
theorem provisionedThroughput_iff_not_payPerRequest (tableName : String)
    (opts : List TableOption) :
    ((makeCreateTableInput tableName opts).provisionedThroughput ≠ none ↔
      (makeTableOptions (.table opts)).billingMode ≠
        BillingModePayPerRequest) ∧
    ((makeTableOptions (.table opts)).billingMode ≠
        BillingModePayPerRequest →
      (makeCreateTableInput tableName opts).provisionedThroughput =
        some { readCapacityUnits :=
                 (makeTableOptions (.table opts)).readCapacityUnits
               writeCapacityUnits :=
                 (makeTableOptions (.table opts)).writeCapacityUnits }) := by
  rw [makeCreateTableInput_eq]
  dsimp only
  rw [makeProvisionedThroughput]
  by_cases hb : (makeTableOptions (.table opts)).billingMode =
      BillingModePayPerRequest <;> simp [hb]

/-- Witness for C1 at the empty option list. -/
theorem provisionedThroughput_iff_not_payPerRequest_witness :
    (makeTableOptions (.table ([] : List TableOption))).billingMode ≠
      BillingModePayPerRequest ∧
    (makeCreateTableInput "events" []).provisionedThroughput =
      some { readCapacityUnits := 3, writeCapacityUnits := 3 } := by
  refine ⟨by decide, ?_⟩
  exact (provisionedThroughput_iff_not_payPerRequest "events" []).2
    (by decide)

/-- C7: rendering with hash key id:S, range key range:N and no other
options yields the documented attribute definitions, key schema, billing
mode and default throughput. -/
theorem default_render_example (tableName : String) :
    (makeCreateTableInput tableName
        [.withHashKey "id" "S", .withRangeKey "range" "N"]
      ).attributeDefinitions =
        [{ attributeName := "id", attributeType := "S" },
         { attributeName := "range", attributeType := "N" }] ∧
    (makeCreateTableInput tableName
        [.withHashKey "id" "S", .withRangeKey "range" "N"]).keySchema =
      [{ attributeName := "id", keyType := "HASH" },
       { attributeName := "range", keyType := "RANGE" }] ∧
    (makeCreateTableInput tableName
        [.withHashKey "id" "S", .withRangeKey "range" "N"]).billingMode =
      "PROVISIONED" ∧
    (makeCreateTableInput tableName
        [.withHashKey "id" "S", .withRangeKey "range" "N"]
      ).provisionedThroughput =
        some { readCapacityUnits := 3, writeCapacityUnits := 3 } :=
  ⟨rfl, rfl, rfl, rfl⟩

/-- C2 counterexample: when the table hash and range keys share the name
a, the rendered attribute-definitions list keeps both entries, so it does
contain two entries with the same attribute name. -/
theorem attributeDefinitions_duplicate_counterexample :
    (makeCreateTableInput "t"
        [.withHashKey "a" "S", .withRangeKey "a" "N"]).attributeDefinitions =
      [{ attributeName := "a", attributeType := "S" },
       { attributeName := "a", attributeType := "N" }] ∧
    ¬ ((makeCreateTableInput "t"
        [.withHashKey "a" "S",
         .withRangeKey "a" "N"]).attributeDefinitions.map
          (fun d => d.attributeName)).Nodup := by
  refine ⟨rfl, ?_⟩
  decide

/-- C2 (amended): provided the resolved table hash and range keys carry
distinct names, the rendered attribute definitions have pairwise distinct
names and each entry carries the type of the first declaration of its name
in the declared attribute sequence. -/
theorem attributeDefinitions_nodup_first_wins (tableName : String)
    (opts : List TableOption)
    (hkeys : distinctTableKeys (makeTableOptions (.table opts)) = true) :
    (((makeCreateTableInput tableName opts).attributeDefinitions.map
        (fun d => d.attributeName)).Nodup) ∧
    (∀ d ∈ (makeCreateTableInput tableName opts).attributeDefinitions,
      (declaredAttributeSeq opts).find?
          (fun a => a.name = d.attributeName) =
        some { name := d.attributeName, typ := d.attributeType }) := by
  rw [attributeDefinitions_characterization tableName opts hkeys,
    specAttributeDefinitions]
  exact ⟨dedupByName_names_nodup _ _, fun d hd => dedupByName_find _ _ _ hd⟩

/-- Witness for the amended C2: a table whose hash key name is also
declared, with another type, on a global index. -/
theorem attributeDefinitions_nodup_first_wins_witness :
    distinctTableKeys (makeTableOptions (.table
      [.withHashKey "id" "S", .withRangeKey "range" "N",
       .withGlobalSecondaryIndex "g" "INCLUDE"
         [.withAttr "id" "N", .withAttr "x" "S"]])) = true ∧
    ((makeCreateTableInput "t"
      [.withHashKey "id" "S", .withRangeKey "range" "N",
       .withGlobalSecondaryIndex "g" "INCLUDE"
         [.withAttr "id" "N", .withAttr "x" "S"]]).attributeDefinitions.map
        (fun d => d.attributeName)).Nodup := by
  refine ⟨by decide, ?_⟩
  exact (attributeDefinitions_nodup_first_wins "t"
    [.withHashKey "id" "S", .withRangeKey "range" "N",
     .withGlobalSecondaryIndex "g" "INCLUDE"
       [.withAttr "id" "N", .withAttr "x" "S"]] (by decide)).1

/-- C3 counterexample: with table keys sharing the name a and a global
index whose own key schema uses x, the rendered list keeps both a entries,
while x, referenced by the index key schema, never appears: so the list is
not the de-duplicated merge of key attributes and all index-referenced
attributes. -/
theorem attributeDefinitions_spec_counterexample :
    (makeCreateTableInput "t"
        [.withHashKey "a" "S", .withRangeKey "a" "N",
         .withGlobalSecondaryIndex "i" "KEYS_ONLY"
           [.withHashKey "x" "S"]]).attributeDefinitions =
      [{ attributeName := "a", attributeType := "S" },
       { attributeName := "a", attributeType := "N" }] ∧
    ((makeCreateTableInput "t"
        [.withHashKey "a" "S", .withRangeKey "a" "N",
         .withGlobalSecondaryIndex "i" "KEYS_ONLY"
           [.withHashKey "x" "S"]]).globalSecondaryIndexes.map
        (fun g => g.keySchema)) =
      [[{ attributeName := "x", keyType := "HASH" }]] ∧
    ¬ (∃ d ∈ (makeCreateTableInput "t"
        [.withHashKey "a" "S", .withRangeKey "a" "N",
         .withGlobalSecondaryIndex "i" "KEYS_ONLY"
           [.withHashKey "x" "S"]]).attributeDefinitions,
        d.attributeName = "x") ∧
    ¬ ((makeCreateTableInput "t"
        [.withHashKey "a" "S", .withRangeKey "a" "N",
         .withGlobalSecondaryIndex "i" "KEYS_ONLY"
           [.withHashKey "x" "S"]]).attributeDefinitions.map
        (fun d => d.attributeName)).Nodup := by
  refine ⟨rfl, rfl, ?_, ?_⟩ <;> decide

/-- C3 (amended): provided the resolved table hash and range keys carry
distinct names, the rendered attribute-definitions list equals the table
key attributes followed by the attributes declared on each index via
attribute options (indexes contribute key-schema attributes only when so
declared), de-duplicated by name with the first occurrence winning. -/
theorem attributeDefinitions_eq_spec (tableName : String)
    (opts : List TableOption)
    (hkeys : distinctTableKeys (makeTableOptions (.table opts)) = true) :
    (makeCreateTableInput tableName opts).attributeDefinitions =
      specAttributeDefinitions opts :=
  attributeDefinitions_characterization tableName opts hkeys

/-- Witness for the amended C3: the de-duplicated merge evaluates as the
rendered list on a request with a cross-index duplicate. -/
theorem attributeDefinitions_eq_spec_witness :
    (makeCreateTableInput "t"
        [.withHashKey "id" "S", .withRangeKey "range" "N",
         .withGlobalSecondaryIndex "g" "INCLUDE"
           [.withAttr "id" "N", .withAttr "x" "S"]]).attributeDefinitions =
      specAttributeDefinitions
        [.withHashKey "id" "S", .withRangeKey "range" "N",
         .withGlobalSecondaryIndex "g" "INCLUDE"
           [.withAttr "id" "N", .withAttr "x" "S"]] ∧
    specAttributeDefinitions
        [.withHashKey "id" "S", .withRangeKey "range" "N",
         .withGlobalSecondaryIndex "g" "INCLUDE"
           [.withAttr "id" "N", .withAttr "x" "S"]] =
      [{ attributeName := "id", attributeType := "S" },
       { attributeName := "range", attributeType := "N" },
       { attributeName := "x", attributeType := "S" }] := by
  refine ⟨attributeDefinitions_eq_spec "t" _ (by decide), ?_⟩
  decide

/-- C4: CreateTableIfNotExists returns none on success and on the
resource-in-use error code, returns every other collaborator error
unchanged, and so two consecutive identical calls both return none when
the collaborator reports the table exists on the second call. -/
theorem createTableIfNotExists_error_handling {Ctx : Type}
    (t : Table Ctx) (ctx : Ctx) (hashKeyName hashKeyType : String)
    (opts : List TableOption) :
    (t.api.createTableWithContext ctx
        (mergedCreateInput t hashKeyName hashKeyType opts) = none →
      CreateTableIfNotExists t ctx hashKeyName hashKeyType opts = none) ∧
    (∀ msg, t.api.createTableWithContext ctx
        (mergedCreateInput t hashKeyName hashKeyType opts) =
          some (.awsErr ErrCodeResourceInUseException msg) →
      CreateTableIfNotExists t ctx hashKeyName hashKeyType opts = none) ∧
    (∀ e, t.api.createTableWithContext ctx
        (mergedCreateInput t hashKeyName hashKeyType opts) = some e →
      hasAwsCode e ErrCodeResourceInUseException = false →
      CreateTableIfNotExists t ctx hashKeyName hashKeyType opts = some e) ∧
    (∀ t₂ : Table Ctx, t₂.tableName = t.tableName → ∀ msg,
      t.api.createTableWithContext ctx
        (mergedCreateInput t hashKeyName hashKeyType opts) = none →
      t₂.api.createTableWithContext ctx
        (mergedCreateInput t₂ hashKeyName hashKeyType opts) =
          some (.awsErr ErrCodeResourceInUseException msg) →
      CreateTableIfNotExists t ctx hashKeyName hashKeyType opts = none ∧
      CreateTableIfNotExists t₂ ctx hashKeyName hashKeyType opts = none) := by
  refine ⟨?_, ?_, ?_, ?_⟩
  · intro h
    rw [CreateTableIfNotExists, h]
  · intro msg h
    rw [CreateTableIfNotExists, h]
    simp [hasAwsCode, ErrCodeResourceInUseException]
  · intro e h hcode
    rw [CreateTableIfNotExists, h]
    simp [hcode]
  · intro t₂ _ msg h1 h2
    constructor
    · rw [CreateTableIfNotExists, h1]
    · rw [CreateTableIfNotExists, h2]
      simp [hasAwsCode, ErrCodeResourceInUseException]

/-- Witness for C4: a collaborator that succeeds, then one that reports
the resource-in-use code; both calls return none. -/
theorem createTableIfNotExists_error_handling_witness :
    CreateTableIfNotExists
        (New Unit { createTableWithContext := fun _ _ => none
                    deleteTableWithContext := fun _ _ => none } "blah")
        () "id" "S" [] = none ∧
    CreateTableIfNotExists
        (New Unit { createTableWithContext := fun _ _ =>
                      some (.awsErr ErrCodeResourceInUseException "boom")
                    deleteTableWithContext := fun _ _ => none } "blah")
        () "id" "S" [] = none := by
  exact (createTableIfNotExists_error_handling
      (New Unit { createTableWithContext := fun _ _ => none
                  deleteTableWithContext := fun _ _ => none } "blah")
      () "id" "S" []).2.2.2
    (New Unit { createTableWithContext := fun _ _ =>
                  some (.awsErr ErrCodeResourceInUseException "boom")
                deleteTableWithContext := fun _ _ => none } "blah")
    rfl "boom" rfl rfl

/-- C5: DeleteTableIfExists consults the collaborator only at the delete
request carrying the bound table name, returns none on success and on the
resource-not-found code, and returns every other error unchanged. -/
theorem deleteTableIfExists_error_handling {Ctx : Type}
    (t : Table Ctx) (ctx : Ctx) :
    (t.api.deleteTableWithContext ctx { tableName := t.tableName } = none →
      DeleteTableIfExists t ctx = none) ∧
    (∀ msg, t.api.deleteTableWithContext ctx { tableName := t.tableName } =
        some (.awsErr ErrCodeResourceNotFoundException msg) →
      DeleteTableIfExists t ctx = none) ∧
    (∀ e, t.api.deleteTableWithContext ctx { tableName := t.tableName } =
        some e →
      hasAwsCode e ErrCodeResourceNotFoundException = false →
      DeleteTableIfExists t ctx = some e) ∧
    (∀ api₂ : DynamoDBAPI Ctx,
      api₂.deleteTableWithContext ctx { tableName := t.tableName } =
        t.api.deleteTableWithContext ctx { tableName := t.tableName } →
      DeleteTableIfExists { t with api := api₂ } ctx =
        DeleteTableIfExists t ctx) := by
  refine ⟨?_, ?_, ?_, ?_⟩
  · intro h
    rw [DeleteTableIfExists, h]
  · intro msg h
    rw [DeleteTableIfExists, h]
    simp [hasAwsCode, ErrCodeResourceNotFoundException]
  · intro e h hcode
    rw [DeleteTableIfExists, h]
    simp [hcode]
  · intro api₂ hagree
    rw [DeleteTableIfExists, DeleteTableIfExists]
    rw [show ({ t with api := api₂ } : Table Ctx).tableName = t.tableName
      from rfl]
    rw [show ({ t with api := api₂ } : Table Ctx).api = api₂ from rfl,
      hagree]

/-- Witness for C5: a collaborator that reports the resource-not-found
code; the delete call returns none. -/
theorem deleteTableIfExists_error_handling_witness :
    DeleteTableIfExists
        (New Unit { createTableWithContext := fun _ _ => none
                    deleteTableWithContext := fun _ _ =>
                      some (.awsErr ErrCodeResourceNotFoundException
                        "boom") } "blah") () = none := by
  exact (deleteTableIfExists_error_handling
      (New Unit { createTableWithContext := fun _ _ => none
                  deleteTableWithContext := fun _ _ =>
                    some (.awsErr ErrCodeResourceNotFoundException "boom") }
        "blah") ()).2.1 "boom" rfl

/-- C6: every rendered global secondary index carries its own throughput
when the resolved billing mode is provisioned, and a rendered local
secondary index is fully determined by its name, key schema and
projection, so it carries no throughput of its own. -/
theorem index_throughput_invariant (tableName : String)
    (opts : List TableOption) :
    (∀ gsi ∈ (makeCreateTableInput tableName opts).globalSecondaryIndexes,
      (makeTableOptions (.table opts)).billingMode =
        BillingModeProvisioned →
      gsi.provisionedThroughput ≠ none) ∧
    (∀ lsi ∈ (makeCreateTableInput tableName opts).localSecondaryIndexes,
      ∀ other : LocalSecondaryIndex,
        other.indexName = lsi.indexName →
        other.keySchema = lsi.keySchema →
        other.projection = lsi.projection → other = lsi) := by
  constructor
  · intro gsi hmem hb
    rw [makeCreateTableInput_eq] at hmem
    dsimp only at hmem
    obtain ⟨d, _, rfl⟩ := List.mem_map.1 hmem
    rw [renderGlobalIndex]
    dsimp only
    rw [makeProvisionedThroughput]
    rw [hb]
    rw [if_neg (by decide)]
    simp
  · intro lsi _ other h1 h2 h3
    cases other
    cases lsi
    simp_all

/-- Witness for C6 at a one-index table under the default provisioned
billing mode. -/
theorem index_throughput_invariant_witness :
    (renderGlobalIndex
        { indexName := "g", projectionType := "ALL", opts := [] }
        BillingModeProvisioned).1.provisionedThroughput ≠ none := by
  have h := (index_throughput_invariant "t"
    [.withGlobalSecondaryIndex "g" "ALL" []]).1
    (renderGlobalIndex
      { indexName := "g", projectionType := "ALL", opts := [] }
      BillingModeProvisioned).1
    (by decide) (by decide)
  exact h

/-- C8: options are folded in declaration order: for every scalar field
the last option of that kind determines the final value, and each
list-kind option appends exactly one element, preserving order. -/
theorem options_fold_order (pre post : List TableOption)
    (iopts : List IndexOption) (mode n t iname ptype : String)
    (cap : Int) (nested : List IndexOption) :
    ((∀ o ∈ post, o.isBillingMode = false) →
      (makeTableOptions (.table
        (pre ++ TableOption.withBillingMode mode :: post))).billingMode =
        mode) ∧
    ((∀ o ∈ post, o.isHashKey = false) →
      (makeTableOptions (.table
        (pre ++ TableOption.withHashKey n t :: post))).keys.hashKey =
        some { attributeName := n, attributeType := t }) ∧
    ((∀ o ∈ post, o.isRangeKey = false) →
      (makeTableOptions (.table
        (pre ++ TableOption.withRangeKey n t :: post))).keys.rangeKey =
        some { attributeName := n, attributeType := t }) ∧
    ((∀ o ∈ post, o.isReadCapacity = false) →
      (makeTableOptions (.table
        (pre ++ TableOption.withReadCapacity cap :: post))
        ).readCapacityUnits = cap) ∧
    ((∀ o ∈ post, o.isWriteCapacity = false) →
      (makeTableOptions (.table
        (pre ++ TableOption.withWriteCapacity cap :: post))
        ).writeCapacityUnits = cap) ∧
    ((∀ o ∈ post, o.isStreamSpecification = false) →
      (makeTableOptions (.table
        (pre ++ TableOption.withStreamSpecification mode :: post))
        ).streamViewType = mode) ∧
    ((makeTableOptions (.table
        (pre ++ [TableOption.withGlobalSecondaryIndex iname ptype nested]))
      ).globalIndexes =
      (makeTableOptions (.table pre)).globalIndexes ++
        [{ indexName := iname, projectionType := ptype, opts := nested }]) ∧
    ((makeTableOptions (.table
        (pre ++ [TableOption.withLocalSecondaryIndex iname ptype nested]))
      ).localIndexes =
      (makeTableOptions (.table pre)).localIndexes ++
        [{ indexName := iname, projectionType := ptype, opts := nested }]) ∧
    ((makeTableOptions (.index (iopts ++ [IndexOption.withAttr n t]))
      ).attributes =
      (makeTableOptions (.index iopts)).attributes ++
        [{ name := n, typ := t }]) := by
  refine ⟨?_, ?_, ?_, ?_, ?_, ?_, ?_, ?_, ?_⟩
  · intro hpost
    rw [makeTableOptions_table, List.foldl_append, List.foldl_cons,
      foldl_applyTable_preserve (fun s => s.billingMode) post
        (fun s o ho => applyTable_billingMode s o (hpost o ho))]
    rfl
  · intro hpost
    rw [makeTableOptions_table, List.foldl_append, List.foldl_cons,
      foldl_applyTable_preserve (fun s => s.keys.hashKey) post
        (fun s o ho => applyTable_hashKey_preserve s o (hpost o ho))]
    rfl
  · intro hpost
    rw [makeTableOptions_table, List.foldl_append, List.foldl_cons,
      foldl_applyTable_preserve (fun s => s.keys.rangeKey) post
        (fun s o ho => applyTable_rangeKey_preserve s o (hpost o ho))]
    rfl
  · intro hpost
    rw [makeTableOptions_table, List.foldl_append, List.foldl_cons,
      foldl_applyTable_preserve (fun s => s.readCapacityUnits) post
        (fun s o ho => applyTable_readCapacity_preserve s o (hpost o ho))]
    rfl
  · intro hpost
    rw [makeTableOptions_table, List.foldl_append, List.foldl_cons,
      foldl_applyTable_preserve (fun s => s.writeCapacityUnits) post
        (fun s o ho => applyTable_writeCapacity_preserve s o (hpost o ho))]
    rfl
  · intro hpost
    rw [makeTableOptions_table, List.foldl_append, List.foldl_cons,
      foldl_applyTable_preserve (fun s => s.streamViewType) post
        (fun s o ho => applyTable_streamViewType_preserve s o (hpost o ho))]
    rfl
  · rw [makeTableOptions_table, List.foldl_append, List.foldl_cons,
      List.foldl_nil, makeTableOptions_table]
    rfl
  · rw [makeTableOptions_table, List.foldl_append, List.foldl_cons,
      List.foldl_nil, makeTableOptions_table]
    rfl
  · rw [makeTableOptions_index, List.foldl_append, List.foldl_cons,
      List.foldl_nil, makeTableOptions_index]
    rfl

/-- Witness for C8: a later billing-mode option wins, and an attribute
option appends. -/
theorem options_fold_order_witness :
    (makeTableOptions (.table
      ([TableOption.withBillingMode "PROVISIONED"] ++
        TableOption.withBillingMode "PAY_PER_REQUEST" ::
          ([] : List TableOption)))).billingMode = "PAY_PER_REQUEST" ∧
    (makeTableOptions (.index
      ([IndexOption.withAttr "a" "S"] ++
        [IndexOption.withAttr "b" "N"]))).attributes =
      (makeTableOptions (.index [IndexOption.withAttr "a" "S"])).attributes
        ++ [{ name := "b", typ := "N" }] := by
  constructor
  · exact (options_fold_order [TableOption.withBillingMode "PROVISIONED"]
      [] [IndexOption.withAttr "a" "S"] "PAY_PER_REQUEST" "b" "N" "i" "ALL"
      7 []).1 (fun o ho => absurd ho (List.not_mem_nil o))
  · exact (options_fold_order [TableOption.withBillingMode "PROVISIONED"]
      [] [IndexOption.withAttr "a" "S"] "PAY_PER_REQUEST" "b" "N" "i" "ALL"
      7 []).2.2.2.2.2.2.2.2

/-- C9: table-level capacity options never reach a global secondary
index: the rendered index list depends only on the index declarations and
the resolved billing mode, and an index with no capacity option of its own
renders the default 3/3 throughput (absent under pay-per-request). -/
theorem gsi_throughput_independent_of_table_capacity (tableName : String)
    (opts : List TableOption) :
    ((makeCreateTableInput tableName opts).globalSecondaryIndexes =
      (makeTableOptions (.table opts)).globalIndexes.map
        (fun d => (renderGlobalIndex d
          (makeTableOptions (.table opts)).billingMode).1)) ∧
    (∀ d : IndexDecl, (∀ io ∈ d.opts, io.isCapacity = false) →
      ((renderGlobalIndex d
          (makeTableOptions (.table opts)).billingMode).1
        ).provisionedThroughput =
        if (makeTableOptions (.table opts)).billingMode =
            BillingModePayPerRequest then none
        else some { readCapacityUnits := DefaultReadCapacity,
                    writeCapacityUnits := DefaultWriteCapacity }) ∧
    (∀ rcap wcap : Int,
      (makeCreateTableInput tableName
        (TableOption.withReadCapacity rcap ::
          TableOption.withWriteCapacity wcap :: opts)
        ).globalSecondaryIndexes =
      (makeCreateTableInput tableName opts).globalSecondaryIndexes) := by
  refine ⟨?_, ?_, ?_⟩
  · rw [makeCreateTableInput_eq]
  · intro d hd
    rw [renderGlobalIndex]
    dsimp only
    rw [makeProvisionedThroughput]
    have h1 : (makeTableOptions (.index d.opts)).readCapacityUnits =
        DefaultReadCapacity := by
      rw [makeTableOptions_index]
      exact (foldl_applyIndex_capacity d.opts hd defaultTableOptions).1
    have h2 : (makeTableOptions (.index d.opts)).writeCapacityUnits =
        DefaultWriteCapacity := by
      rw [makeTableOptions_index]
      exact (foldl_applyIndex_capacity d.opts hd defaultTableOptions).2
    dsimp only
    rw [h1, h2]
  · intro rcap wcap
    have hpair := foldl_applyTable_billing_gsis opts
      (applyTable (applyTable defaultTableOptions
        (.withReadCapacity rcap)) (.withWriteCapacity wcap))
      defaultTableOptions rfl rfl
    rw [makeCreateTableInput_eq, makeCreateTableInput_eq]
    dsimp only
    rw [makeTableOptions_table, List.foldl_cons, List.foldl_cons,
      makeTableOptions_table, hpair.1, hpair.2]

/-- Witness for C9: with table read capacity 100, a capacity-free index
still renders the default 3/3 throughput. -/
theorem gsi_throughput_independent_of_table_capacity_witness :
    (renderGlobalIndex
        { indexName := "g", projectionType := "ALL", opts := [] }
        (makeTableOptions (.table
          [TableOption.withReadCapacity 100])).billingMode
      ).1.provisionedThroughput =
      some { readCapacityUnits := 3, writeCapacityUnits := 3 } := by
  have h := (gsi_throughput_independent_of_table_capacity "t"
    [TableOption.withReadCapacity 100]).2.1
    { indexName := "g", projectionType := "ALL", opts := [] }
    (fun io hio => absurd hio (List.not_mem_nil io))
  exact h.trans (by decide)

/-- C10: the hash key arguments of CreateTableIfNotExists are prepended
to the option list, so a later hash-key option overrides them and the
rendered request uses the key named by the option, not the arguments. -/
theorem hashKey_option_overrides_argument {Ctx : Type}
    (api : DynamoDBAPI Ctx)
    (tableName hashKeyName hashKeyType name2 type2 : String)
    (pre post : List TableOption)
    (hpost : ∀ o ∈ post, o.isHashKey = false) :
    (makeTableOptions (.table
        (TableOption.withHashKey hashKeyName hashKeyType ::
          (pre ++ TableOption.withHashKey name2 type2 :: post)))
      ).keys.hashKey =
      some { attributeName := name2, attributeType := type2 } ∧
    (mergedCreateInput (New Ctx api tableName) hashKeyName hashKeyType
        (pre ++ TableOption.withHashKey name2 type2 :: post)
      ).keySchema.head? =
      some { attributeName := name2, keyType := KeyTypeHash } ∧
    (hashKeyName ≠ name2 →
      { attributeName := hashKeyName, keyType := KeyTypeHash } ∉
        (mergedCreateInput (New Ctx api tableName) hashKeyName hashKeyType
          (pre ++ TableOption.withHashKey name2 type2 :: post)
          ).keySchema) := by
  have hkey : (makeTableOptions (.table
      (TableOption.withHashKey hashKeyName hashKeyType ::
        (pre ++ TableOption.withHashKey name2 type2 :: post)))
      ).keys.hashKey =
      some { attributeName := name2, attributeType := type2 } := by
    rw [makeTableOptions_table, List.foldl_cons, List.foldl_append,
      List.foldl_cons,
      foldl_applyTable_preserve (fun s => s.keys.hashKey) post
        (fun s o ho => applyTable_hashKey_preserve s o (hpost o ho))]
    rfl
  have hks : (mergedCreateInput (New Ctx api tableName) hashKeyName
      hashKeyType (pre ++ TableOption.withHashKey name2 type2 :: post)
      ).keySchema =
      makeKeySchemaElements (makeTableOptions (.table
        (TableOption.withHashKey hashKeyName hashKeyType ::
          (pre ++ TableOption.withHashKey name2 type2 :: post)))) := by
    rw [mergedCreateInput, makeCreateTableInput_eq]
  refine ⟨hkey, ?_, ?_⟩
  · rw [hks, makeKeySchemaElements, hkey]
    rcases hr : (makeTableOptions (.table
        (TableOption.withHashKey hashKeyName hashKeyType ::
          (pre ++ TableOption.withHashKey name2 type2 :: post)))
        ).keys.rangeKey with _ | rk <;> simp [hr]
  · intro hne hmem
    rw [hks, makeKeySchemaElements, hkey] at hmem
    rcases hr : (makeTableOptions (.table
        (TableOption.withHashKey hashKeyName hashKeyType ::
          (pre ++ TableOption.withHashKey name2 type2 :: post)))
        ).keys.rangeKey with _ | rk <;>
      rw [hr] at hmem <;>
      simp [KeyTypeHash, KeyTypeRange, hne] at hmem

/-- Witness for C10: arguments give hash key args:S, the option list sets
opt:N, and the resolved hash key is the one from the option. -/
theorem hashKey_option_overrides_argument_witness :
    (makeTableOptions (.table
        (TableOption.withHashKey "args" "S" ::
          (([] : List TableOption) ++
            TableOption.withHashKey "opt" "N" :: ([] : List TableOption))))
      ).keys.hashKey =
      some { attributeName := "opt", attributeType := "N" } := by
  exact (hashKey_option_overrides_argument
    ({ createTableWithContext := fun _ _ => none
       deleteTableWithContext := fun _ _ => none } : DynamoDBAPI Unit)
    "t" "args" "S" "opt" "N" [] []
    (fun o ho => absurd ho (List.not_mem_nil o))).1

end Dynamo
